import Mathlib

/-!
Verification development for the knub-command-manager matching engine.

The definitions below are a shallow embedding of the TypeScript sources
(`dist/parseArguments.js`, `dist/CommandManager.js`, `dist/defaultTypes.js`):
JavaScript strings are Lean `String`s indexed by code points, JS objects used
as ordered maps become ordered association lists, fallible paths return
`Except String`, and the `async` plumbing (which the code sequences strictly)
is erased, leaving pure state passing.
-/

namespace Knub

/-- The ECMAScript `\s` character class used by `const whitespace = /\s/`
in `parseArguments.js`: WhiteSpace ∪ LineTerminator code points. -/
def isJsWhitespace (c : Char) : Bool :=
  c == ' ' || c == '\t' || c == '\n' || c == '\r' || c == '\x0b' || c == '\x0c' ||
  c == '\u00a0' || c == '\u1680' || (0x2000 ≤ c.toNat && c.toNat ≤ 0x200a) ||
  c == '\u2028' || c == '\u2029' || c == '\u202f' || c == '\u205f' ||
  c == '\u3000' || c == '\ufeff'

/-- The `quoteChars` array of `parseArguments.js`. -/
def isQuoteChar (c : Char) : Bool :=
  c == '\'' || c == '"'

/-- One parsed argument token: `{ index, value, quoted }` in `parseArguments.js`.
`index` is the code-point offset of the token in the tokenized string. -/
structure Tok where
  index : Nat
  value : String
  quoted : Bool
deriving DecidableEq, Repr

/-- The mutable locals of `parseArguments`: `index`, `current`, `escape`,
`inQuote`, `startedWithQuote`, and the output array `args`. -/
structure ParseState where
  index : Nat
  current : String
  escape : Bool
  inQuote : Option Char
  startedWithQuote : Bool
  args : List Tok
deriving Repr

/-- Initial state of the `parseArguments` scan. -/
def initParseState : ParseState :=
  { index := 0, current := "", escape := false, inQuote := none,
    startedWithQuote := false, args := [] }

/-- `flushCurrent(newIndex, quoted)`: remembers the old `index`, moves `index`
to `newIndex`, and appends the accumulator as a token when it is non-empty. -/
def flushCurrent (σ : ParseState) (newIndex : Nat) (quoted : Bool) : ParseState :=
  let argIndex := σ.index
  let σ' := { σ with index := newIndex }
  if σ'.current = "" then σ'
  else { σ' with args := σ'.args ++ [⟨argIndex, σ'.current, quoted⟩], current := "" }

/-- One iteration of the `for (const [i, char] of chars.entries())` loop in
`parseArguments.js` (the dist build, which tracks `startedWithQuote`). -/
def parseStep (σ : ParseState) (i : Nat) (c : Char) : ParseState :=
  if σ.escape then
    { σ with current := σ.current.push c, escape := false }
  else if isJsWhitespace c && σ.inQuote == none then
    flushCurrent σ (i + 1) false
  else if isQuoteChar c then
    match σ.inQuote with
    | none =>
      { σ with inQuote := some c,
               startedWithQuote := if σ.current = "" then true else σ.startedWithQuote }
    | some q =>
      if q = c then
        { flushCurrent σ (i + 1) σ.startedWithQuote with
            inQuote := none, startedWithQuote := false }
      else
        { σ with current := σ.current.push c }
  else if c = '\\' then
    { σ with escape := true }
  else
    { σ with current := σ.current.push c }

/-- Runs the main scanning loop of `parseArguments` over a character list,
pairing each character with its code-point position. -/
def runParseLoop (cs : List Char) : ParseState :=
  (cs.enum).foldl (fun σ p => parseStep σ p.1 p.2) initParseState

/-- `parseArguments(str)`: the tokenizer. After the loop, a non-empty
accumulator is flushed as a final token (`flushCurrent(0)`, `quoted` false). -/
def parseArguments (s : String) : List Tok :=
  let σ := runParseLoop s.data
  if σ.current ≠ "" then (flushCurrent σ 0 false).args else σ.args


/-- A JavaScript value as it flows through the binder: raw strings, numbers
produced by converters, `true` for switches, arrays for rest parameters, and
`null` (the `def: null` in `defaultParameter`). -/
inductive JsVal where
  | str (s : String)
  | num (n : Int)
  | bool (b : Bool)
  | arr (vs : List JsVal)
  | null

/-- JavaScript truthiness, used by `if (opt.def)` / `if (param.def)` and the
switch-value check `if (optValue)` in `CommandManager.js`. -/
def jsTruthy : JsVal → Bool
  | .str s => s ≠ ""
  | .num n => n ≠ 0
  | .bool b => b
  | .arr _ => true
  | .null => false

/-- JavaScript `String(v)` on non-array values. -/
def jsToStringAtom : JsVal → String
  | .str s => s
  | .num n => toString n
  | .bool b => if b then "true" else "false"
  | .null => "null"
  | .arr _ => ""

/-- JavaScript `String(v)` on the values the engine passes around. Arrays
join their elements with commas; in the engine arrays arise only as
rest-parameter collections of raw token strings, so one level of nesting is
all `String` is ever applied to. -/
def jsToString : JsVal → String
  | .arr vs => String.intercalate "," (vs.map jsToStringAtom)
  | v => jsToStringAtom v

/-- A type converter `(value, context) → value`. Conversion failures
(`TypeConversionError` in the code) are `Except.error`; the context argument
is erased (none of the modelled converters consult it). -/
abbrev TypeConv : Type := JsVal → Except String JsVal

/-- The `string` converter of `defaultTypes.js`: `String(value)`. -/
def convString : TypeConv := fun v => .ok (.str (jsToString v))

/-- Decimal-integer fragment of JS `isNaN`/`parseFloat`: optionally signed
digit strings. The `number` converter of `defaultTypes.js` delegates to these
host builtins; this models their contract on the decimal literals the engine
is exercised with. -/
def parseDecimal? (s : String) : Option Int :=
  let digitsVal : List Char → Option Nat := fun l =>
    if l ≠ [] && l.all Char.isDigit then
      some (l.foldl (fun acc c => acc * 10 + (c.toNat - 48)) 0)
    else none
  match s.data with
  | '-' :: rest => (digitsVal rest).map (fun n => -(n : Int))
  | '+' :: rest => (digitsVal rest).map (fun n => (n : Int))
  | l => (digitsVal l).map (fun n => (n : Int))

/-- The `number` converter of `defaultTypes.js`: throws `TypeConversionError`
with message "Value is not a number" when `isNaN(value)`, else parses. -/
def convNumber : TypeConv := fun v =>
  match parseDecimal? (jsToString v) with
  | some n => .ok (.num n)
  | none => .error "Value is not a number"

/-- The `bool` converter of `defaultTypes.js`. -/
def convBool : TypeConv := fun v =>
  .ok (.bool (jsToString v == "true" || jsToString v == "1"))

/-- An identity converter, standing in for a caller-supplied custom type that
returns its input unchanged. -/
def idConv : TypeConv := fun v => .ok v

/-- A positional parameter spec, after `add()` merges `defaultParameter`
(`required: true, def: null, rest: false, catchAll: false`) into the
caller-supplied fields. -/
structure Param where
  type : TypeConv
  required : Bool
  defVal : JsVal
  rest : Bool
  catchAll : Bool

/-- An option spec (a signature entry with `option: true`). -/
structure Opt where
  type : TypeConv
  shortcut : Option String
  isSwitch : Bool
  defVal : JsVal

/-- A signature entry: the code discriminates entries on `sig.option === true`. -/
inductive SigEntry where
  | param (p : Param)
  | opt (o : Opt)

/-- A signature: a JS object used as an ordered name → spec map. -/
abbrev Sig : Type := List (String × SigEntry)

/-- A bound value in the match result: `{ parameter|option, value,
usesDefaultValue }`. -/
structure BoundVal where
  source : SigEntry
  value : JsVal
  usesDefault : Bool

/-- The `result` object of `tryMatchingArgumentsToSignature`: an ordered
name → bound-value map. -/
abbrev BoundMap : Type := List (String × BoundVal)

/-- JS property write `result[name] = v`: replaces in place if the key exists,
else appends (JS objects keep first-insertion key order). -/
def setEntry (r : BoundMap) (name : String) (v : BoundVal) : BoundMap :=
  if r.any (fun e => e.1 == name) then
    r.map (fun e => if e.1 == name then (name, v) else e)
  else r ++ [(name, v)]

/-- JS property read `result[name]` (absent keys read as `undefined`). -/
def getEntry (r : BoundMap) (name : String) : Option BoundVal :=
  (r.find? (fun e => e.1 == name)).map (fun e => e.2)

/-- Signature lookup `signature[name]`. -/
def sigLookup (sig : Sig) (name : String) : Option SigEntry :=
  (sig.find? (fun e => e.1 == name)).map (fun e => e.2)

/-- JS `String.prototype.startsWith` on code points. -/
def jsStartsWith (s pre : String) : Bool :=
  s.data.take pre.data.length == pre.data

/-- JS `String.prototype.slice(n)` on code points. -/
def jsSlice (s : String) (n : Nat) : String :=
  ⟨s.data.drop n⟩

/-- Scan implementing the lazy regex `optMatchRegex = /^(\S*?)(?:=(.+))?$/`:
the shortest all-non-whitespace group 1 such that the remainder is empty or is
`=` followed by one-or-more non-line-terminator characters. -/
def optMatchGo (acc : String) : List Char → Option (String × Option String)
  | [] => some (acc, none)
  | c :: rest =>
    if c == '=' && rest ≠ [] &&
        rest.all (fun ch => !(ch == '\n' || ch == '\r' || ch == ' ' || ch == ' ')) then
      some (acc, some ⟨rest⟩)
    else if isJsWhitespace c then none
    else optMatchGo (acc.push c) rest

/-- `value.match(optMatchRegex)`: yields the option name and the optional
inline `=value`. -/
def jsOptMatch (s : String) : Option (String × Option String) :=
  optMatchGo "" s.data

/-- Stable insertion keeping longer strings first: an element moves ahead of
the first strictly shorter one, matching the comparator
`(a, b) => b.length - a.length` used on `optionPrefixes`. -/
def insertByLen (x : String) : List String → List String
  | [] => [x]
  | y :: ys => if y.length < x.length then x :: y :: ys else y :: insertByLen x ys

/-- The constructor sort of `optionPrefixes`, descending by length so that a
longer prefix wins over a shorter one that starts it. -/
def sortPrefixes : List String → List String
  | [] => []
  | x :: xs => insertByLen x (sortPrefixes xs)

/-- A registered command definition. Trigger patterns and the command prefix
are kept as their literal source strings; `matchTriggerLen`/`stripPrefixCI`
below give the compiled regexes (`^escaped(?=\s|$)` and `^escaped`, both with
the `i` flag) their matching semantics. Pre/post filters are host-supplied
black boxes; each is embedded as the boolean it returns for the match at hand. -/
structure CommandDef where
  id : Nat
  pre : Option String
  triggers : List String
  signatures : List Sig
  preFilters : List Bool
  postFilters : List Bool

/-- The `CommandManager` state: registered commands, the default command
prefix, the sorted option prefixes and the id counter. -/
structure Manager where
  commands : List CommandDef
  defaultPre : Option String
  optionPrefixes : List String
  commandId : Nat

/-- The `CommandManager` constructor: records the default prefix and sorts the
option prefixes (default `["-", "--"]`) descending by length. -/
def mkManager (pre : Option String) (optPre : Option (List String)) : Manager :=
  { commands := [], defaultPre := pre,
    optionPrefixes := sortPrefixes (optPre.getD ["-", "--"]), commandId := 0 }

/-- The per-`add()` configuration modelled by the claims: an optional prefix
override (`some none` = explicit null = no prefix) and the filter lists. -/
structure AddConfig where
  preOverride : Option (Option String)
  preFilters : List Bool
  postFilters : List Bool

/-- An `add()` call with no config object. -/
def defaultAddConfig : AddConfig :=
  { preOverride := none, preFilters := [], postFilters := [] }

/-- The signature-validation loop of `add()`, tracking `hadOptional`,
`hadRest` and `hadCatchAll` across the non-option entries. -/
def validateLoop : List (String × SigEntry) → Bool → Bool → Bool → Except String Unit
  | [], _, _, _ => .ok ()
  | (_, .opt _) :: rest, ho, hr, hc => validateLoop rest ho hr hc
  | (_, .param p) :: rest, ho, hr, hc =>
    if !p.required && ho then .error "Can only have 1 optional parameter to avoid ambiguity"
    else if p.required && ho then .error "Optional parameter must come last"
    else if hr then .error "Rest parameter must come last"
    else if hc then .error "Catch-all parameter must come last"
    else validateLoop rest (ho || !p.required) (hr || p.rest) (hc || p.catchAll)

/-- Validation of one signature against the ordering invariants. -/
def validateSignature (sig : Sig) : Except String Unit :=
  validateLoop sig false false false

/-- Validation of every signature passed to `add()`. -/
def validateSignatures : List Sig → Except String Unit
  | [] => .ok ()
  | sig :: rest =>
    match validateSignature sig with
    | .error e => .error e
    | .ok _ => validateSignatures rest

/-- `add(trigger, signature, config)`: resolves the effective prefix,
validates the signatures (throwing leaves the registry untouched), assigns the
next id and appends the definition. -/
def add (m : Manager) (triggers : List String) (sigs : List Sig)
    (config : AddConfig) : Except String (Manager × CommandDef) :=
  let pre := match config.preOverride with
    | none => m.defaultPre
    | some p => p
  match validateSignatures sigs with
  | .error e => .error e
  | .ok _ =>
    let id := m.commandId + 1
    let cmd : CommandDef :=
      { id := id, pre := pre, triggers := triggers, signatures := sigs,
        preFilters := config.preFilters, postFilters := config.postFilters }
    .ok ({ m with commands := m.commands ++ [cmd], commandId := id }, cmd)

/-- `add`, keeping the old manager state when validation throws (used to chain
registrations in concrete scenarios). -/
def addOrSame (m : Manager) (triggers : List String) (sigs : List Sig)
    (config : AddConfig) : Manager :=
  match add m triggers sigs config with
  | .ok (m2, _) => m2
  | .error _ => m



/-- A successful match: `{ ...command, values }`. -/
structure Matched where
  command : CommandDef
  values : BoundMap

/-- The non-null results of `findMatchingCommand`: a matched command, or the
retained last match error together with its offending definition. -/
inductive FindResult where
  | success (mc : Matched)
  | failure (e : String) (cmd : CommandDef)

/-- Whether an `Except` is an error result. -/
def isErr {ε α : Type} : Except ε α → Bool
  | .error _ => true
  | .ok _ => false

/-- Case-insensitive comparison of character lists (the `i` regex flag). -/
def lowerEq (a b : List Char) : Bool :=
  a.map Char.toLower == b.map Char.toLower

/-- The compiled literal trigger `^escaped(trigger)(?=\s|$)` with flag `i`:
matches when the string starts with the trigger (case-insensitively) and the
trigger is followed by whitespace or end of string; yields the length of the
matched text (the lookahead consumes nothing). -/
def matchTriggerLen (t s : String) : Option Nat :=
  let n := t.data.length
  if lowerEq (s.data.take n) t.data &&
      (s.data.length == n ||
        (decide (n < s.data.length) && isJsWhitespace (s.data.getD n ' '))) then
    some n
  else none

/-- The compiled command prefix `^escaped(prefix)` with flag `i`: strips a
case-insensitive match of the prefix from the start of the string. -/
def stripPreCI (p s : String) : Option String :=
  if decide (p.data.length ≤ s.data.length) && lowerEq (s.data.take p.data.length) p.data then
    some (jsSlice s p.data.length)
  else none

/-- The trigger loop of `tryMatchingCommand`: every matching trigger is
consumed from the working string, and the flag records whether any matched. -/
def applyTriggers : List String → String → Bool → String × Bool
  | [], s, m => (s, m)
  | t :: ts, s, m =>
    match matchTriggerLen t s with
    | some n => applyTriggers ts (jsSlice s n) true
    | none => applyTriggers ts s m

/-- The effect of one iteration of the argument/option walk. -/
inductive LoopStep where
  | err (e : String)
  | done (result : BoundMap)
  | contParam (result : BoundMap)
  | contOpt (result : BoundMap) (skipNext : Bool)

/-- One iteration of the token walk in `tryMatchingArgumentsToSignature`,
looking at the token under the cursor and the tokens after it: option-prefix
detection on unquoted tokens, option-name resolution, switch/value handling
(possibly consuming the following token), and otherwise binding to the
positional parameter under `paramIndex`; rest and catch-all parameters report
`done`, ending the walk (`break` in the code). -/
def bindStep (prefixes : List String) (params : List (String × Param))
    (opts : List (String × Opt)) (str : String) (arg : Tok) (restToks : List Tok)
    (paramIndex : Nat) (result : BoundMap) : LoopStep :=
  let viaOption : Option LoopStep :=
    if arg.quoted then none
    else
      match prefixes.find? (fun pr => jsStartsWith arg.value pr) with
      | none => none
      | some pre =>
        match jsOptMatch (jsSlice arg.value pre.data.length) with
        | none => none
        | some (matchedOptName, inlineVal) =>
          match opts.find? (fun e => e.1 == matchedOptName || e.2.shortcut == some matchedOptName) with
          | none => some (.err ("Unknown option: " ++ pre ++ matchedOptName))
          | some (optName, opt) =>
            if opt.isSwitch then
              match inlineVal with
              | some _ =>
                some (.err ("Switch options can\x27t have values: " ++ pre ++ optName))
              | none =>
                some (.contOpt (setEntry result optName ⟨.opt opt, .bool true, false⟩) false)
            else
              match inlineVal with
              | some v =>
                some (.contOpt (setEntry result optName ⟨.opt opt, .str v, false⟩) false)
              | none =>
                match restToks.head? with
                | none => some (.err ("No value for option: " ++ pre ++ optName))
                | some nextArg =>
                  some (.contOpt (setEntry result optName ⟨.opt opt, .str nextArg.value, false⟩) true)
  match viaOption with
  | some step => step
  | none =>
    match params.get? paramIndex with
    | none => .err ("Too many arguments, expected " ++ toString params.length)
    | some (paramName, param) =>
      if param.rest then
        let restArgs := arg :: restToks
        if param.required && restArgs.length == 0 then
          .err ("Missing required argument: " ++ paramName)
        else
          .done (setEntry result paramName
            ⟨.param param, .arr (restArgs.map (fun a => .str a.value)), false⟩)
      else if param.catchAll then
        .done (setEntry result paramName ⟨.param param, .str (jsSlice str arg.index), false⟩)
      else
        .contParam (setEntry result paramName ⟨.param param, .str arg.value, false⟩)

/-- The argument/option walk of `tryMatchingArgumentsToSignature`: the cursor
moves along the token list (the token under the cursor plus the remaining
tokens stand for index `i` into `parsedArguments`), with a running
positional-parameter cursor and the growing result map. A `skipNext`
continuation drops the following token, which the option just consumed. The
`skipNext` step with no remaining token cannot occur (`bindStep` only emits it
after seeing a next token). -/
def bindLoop (prefixes : List String) (params : List (String × Param))
    (opts : List (String × Opt)) (str : String) :
    List Tok → Nat → BoundMap → Except String BoundMap
  | [], _, result => .ok result
  | arg :: restToks, paramIndex, result =>
    match bindStep prefixes params opts str arg restToks paramIndex result with
    | .err e => .error e
    | .done r => .ok r
    | .contParam r => bindLoop prefixes params opts str restToks (paramIndex + 1) r
    | .contOpt r false => bindLoop prefixes params opts str restToks paramIndex r
    | .contOpt r true =>
      match restToks with
      | [] => .ok r
      | _ :: rest2 => bindLoop prefixes params opts str rest2 paramIndex r

/-- After the walk: a non-switch option not yet in the result gets its default
when that default is truthy (`if (opt.def)`), flagged `usesDefaultValue`. -/
def fillOptionDefaults (opts : List (String × Opt)) (result : BoundMap) : BoundMap :=
  opts.foldl
    (fun r e =>
      if (getEntry r e.1).isSome then r
      else if e.2.isSwitch then r
      else if jsTruthy e.2.defVal then
        setEntry r e.1 ⟨.opt e.2, e.2.defVal, true⟩
      else r)
    result

/-- After the walk: a parameter not yet in the result errors when required,
else gets its default when that default is truthy (`if (param.def)`). -/
def fillParamDefaults : List (String × Param) → BoundMap → Except String BoundMap
  | [], result => .ok result
  | (name, p) :: rest, result =>
    if (getEntry result name).isSome then fillParamDefaults rest result
    else if p.required then .error ("Missing required argument: " ++ name)
    else if jsTruthy p.defVal then
      fillParamDefaults rest (setEntry result name ⟨.param p, p.defVal, true⟩)
    else fillParamDefaults rest result

/-- Converts each list element in order, stopping at the first failure. -/
def convertList (f : TypeConv) : List JsVal → Except String (List JsVal)
  | [] => .ok []
  | v :: vs =>
    match f v with
    | .error e => .error e
    | .ok v2 =>
      match convertList f vs with
      | .error e => .error e
      | .ok vs2 => .ok (v2 :: vs2)

/-- The type-conversion pass for one result entry. The code dispatches on
`signature[name].option` and then reads the spec stored in the entry; the two
always agree (every entry is created from a signature entry), so the mismatch
branches below are unreachable and keep the entry unchanged. A
`TypeConversionError` is wrapped into a match error; for options the code
interpolates the converter function itself into the message, rendered here as
a fixed suffix. -/
def convertOne (signature : Sig) (name : String) (bv : BoundVal) :
    Except String BoundVal :=
  match sigLookup signature name with
  | some (.param _) =>
    match bv.source with
    | .param p =>
      if p.rest then
        match bv.value with
        | .arr vs =>
          match convertList p.type vs with
          | .ok vs2 => .ok { bv with value := .arr vs2 }
          | .error e =>
            .error ("Could not convert argument " ++ name ++ "\x27s type: " ++ e)
        | v =>
          match p.type v with
          | .ok v2 => .ok { bv with value := v2 }
          | .error e =>
            .error ("Could not convert argument " ++ name ++ "\x27s type: " ++ e)
      else
        match p.type bv.value with
        | .ok v2 => .ok { bv with value := v2 }
        | .error e =>
          .error ("Could not convert argument " ++ name ++ "\x27s type: " ++ e)
    | .opt _ => .ok bv
  | some (.opt _) =>
    match bv.source with
    | .opt o =>
      if o.isSwitch then .ok bv
      else
        match o.type bv.value with
        | .ok v2 => .ok { bv with value := v2 }
        | .error _ =>
          .error ("Could not convert option " ++ name ++ " to type")
    | .param _ => .ok bv
  | none => .ok bv

/-- The type-conversion pass over the result map, in insertion order. -/
def convertValues (signature : Sig) : BoundMap → Except String BoundMap
  | [] => .ok []
  | (name, bv) :: rest =>
    match convertOne signature name bv with
    | .error e => .error e
    | .ok bv2 =>
      match convertValues signature rest with
      | .error e => .error e
      | .ok rest2 => .ok ((name, bv2) :: rest2)

/-- `tryMatchingArgumentsToSignature`: splits the signature into parameters
and options, walks the tokens, fills defaults, then converts types. -/
def tryMatchingArgumentsToSignature (m : Manager) (parsedArguments : List Tok)
    (signature : Sig) (str : String) : Except String BoundMap :=
  let parameters := signature.filterMap
    (fun e => match e.2 with | .param p => some (e.1, p) | .opt _ => none)
  let options := signature.filterMap
    (fun e => match e.2 with | .opt o => some (e.1, o) | .param _ => none)
  match bindLoop m.optionPrefixes parameters options str parsedArguments 0 [] with
  | .error e => .error e
  | .ok r1 =>
    match fillParamDefaults parameters (fillOptionDefaults options r1) with
    | .error e => .error e
    | .ok r2 => convertValues signature r2

/-- The signature-overload loop of `tryMatchingCommand`: overloads are tried
in declaration order, stopping at the first success; the error retained at the
end is the most recent one (`{error: "?"}` stands in when the list is empty,
which `tryMatchingCommand` rules out by substituting `[{}]`). -/
def sigLoop (m : Manager) (args : List Tok) (str : String) :
    List Sig → Except String BoundMap
  | [] => .error "?"
  | sig :: rest =>
    match tryMatchingArgumentsToSignature m args sig str with
    | .ok r => .ok r
    | .error e =>
      match rest with
      | [] => .error e
      | _ => sigLoop m args str rest

/-- `tryMatchingCommand(command, str)`: prefix test, trigger test and
consumption, tokenization, then the overload loop. `none` models the `null`
returns (prefix or trigger did not match). -/
def tryMatchingCommand (m : Manager) (c : CommandDef) (s : String) :
    Option (Except String Matched) :=
  let afterPre : Option String :=
    match c.pre with
    | some p => stripPreCI p s
    | none => some s
  match afterPre with
  | none => none
  | some s1 =>
    let (s2, matchedTrigger) := applyTriggers c.triggers s1 false
    if !matchedTrigger then none
    else
      let parsedArguments := parseArguments s2
      let sigs := if c.signatures.length > 0 then c.signatures else [[]]
      match sigLoop m parsedArguments s2 sigs with
      | .error e => some (.error e)
      | .ok values => some (.ok ⟨c, values⟩)

/-- The loop body of `findMatchingCommand`, carrying `onlyErrors` and the
retained last error with its definition. -/
def findLoop (m : Manager) (s : String) :
    List CommandDef → Bool → Option (String × CommandDef) → Option FindResult
  | [], onlyErrors, lastErr =>
    match lastErr with
    | some (e, c) => if onlyErrors then some (.failure e c) else none
    | none => none
  | c :: rest, onlyErrors, lastErr =>
    if !c.preFilters.all id then findLoop m s rest onlyErrors lastErr
    else
      match tryMatchingCommand m c s with
      | none => findLoop m s rest onlyErrors lastErr
      | some (.error e) => findLoop m s rest onlyErrors (some (e, c))
      | some (.ok mc) =>
        if !c.postFilters.all id then findLoop m s rest false lastErr
        else some (.success mc)

/-- `findMatchingCommand(str)`: iterates the registered definitions in order;
pre-filter failures and prefix/trigger misses are skipped silently, binder
errors are retained (most recent wins), and the retained error is returned
only when every attempt that reached binding failed. -/
def findMatchingCommand (m : Manager) (s : String) : Option FindResult :=
  findLoop m s m.commands true none

/-- The observable outcome of one definition inside the `findMatchingCommand`
loop: `none` when its pre-filters reject it or its prefix/trigger do not
match, otherwise the result of the binding attempt. -/
def cmdOutcome (m : Manager) (s : String) (c : CommandDef) :
    Option (Except String Matched) :=
  if c.preFilters.all id then tryMatchingCommand m c s else none

/-- The last retained binder error (with its definition) over a list of
definitions, starting from a previously retained one. -/
def lastErrOf (m : Manager) (s : String) :
    List CommandDef → Option (String × CommandDef) → Option (String × CommandDef)
  | [], acc => acc
  | c :: rest, acc =>
    match cmdOutcome m s c with
    | some (.error e) => lastErrOf m s rest (some (e, c))
    | _ => lastErrOf m s rest acc



/-- A required string parameter, as produced for `<arg>`. -/
def strParam : Param :=
  { type := convString, required := true, defVal := .null, rest := false, catchAll := false }

/-- A required number parameter, as produced for `<bar:number>`. -/
def numParam : Param :=
  { type := convNumber, required := true, defVal := .null, rest := false, catchAll := false }

/-- A required catch-all string parameter, as produced for `<arg$>`. -/
def catchAllParam : Param :=
  { type := convString, required := true, defVal := .null, rest := false, catchAll := true }

/-- The signature `<arg$>`. -/
def c1Sig : Sig := [("arg", .param catchAllParam)]

/-- Registry with one command `cmd <arg$>` under prefix `!`. -/
def c1Manager : Manager :=
  addOrSame (mkManager (some "!") none) ["cmd"] [c1Sig] defaultAddConfig

/-- The definition registered by `c1Manager`. -/
def c1Def : CommandDef :=
  { id := 1, pre := some "!", triggers := ["cmd"], signatures := [c1Sig],
    preFilters := [], postFilters := [] }

/-- First C2 definition: `foo <arg>`, whose binder errors on `!foo`. -/
def c2Def1 : CommandDef :=
  { id := 1, pre := some "!", triggers := ["foo"], signatures := [[("arg", .param strParam)]],
    preFilters := [], postFilters := [] }

/-- Second C2 definition: `foo` with no parameters and a rejecting post-filter. -/
def c2Def2 : CommandDef :=
  { id := 2, pre := some "!", triggers := ["foo"], signatures := [],
    preFilters := [], postFilters := [false] }

/-- Registry for the C2 scenario: an erroring definition followed by one that
binds successfully but is rejected by its post-filter. -/
def c2Manager : Manager :=
  addOrSame
    (addOrSame (mkManager (some "!") none) ["foo"] [[("arg", .param strParam)]]
      defaultAddConfig)
    ["foo"] [] { preOverride := none, preFilters := [], postFilters := [false] }

/-- Registry with `s <arg>` registered before `suspend`, under prefix `!`. -/
def c4Manager : Manager :=
  addOrSame
    (addOrSame (mkManager (some "!") none) ["s"] [[("arg", .param strParam)]]
      defaultAddConfig)
    ["suspend"] [] defaultAddConfig

/-- The `s <arg>` definition of `c4Manager`. -/
def c4DefS : CommandDef :=
  { id := 1, pre := some "!", triggers := ["s"], signatures := [[("arg", .param strParam)]],
    preFilters := [], postFilters := [] }

/-- The `suspend` definition of `c4Manager`. -/
def c4DefSuspend : CommandDef :=
  { id := 2, pre := some "!", triggers := ["suspend"], signatures := [],
    preFilters := [], postFilters := [] }

/-- A required rest parameter, as produced for `<a...>`. -/
def restParam : Param :=
  { type := convString, required := true, defVal := .null, rest := true, catchAll := false }

/-- An optional string parameter, as produced for `[a]`. -/
def optionalParam : Param :=
  { type := convString, required := false, defVal := .null, rest := false, catchAll := false }

/-- The invalid signature `<a...> <b...>`. -/
def twoRestSig : Sig := [("a", .param restParam), ("b", .param restParam)]

/-- The invalid signature `<a$> <b$>`. -/
def twoCatchAllSig : Sig := [("a", .param catchAllParam), ("b", .param catchAllParam)]

/-- The invalid signature `[a] <b>`. -/
def optThenReqSig : Sig := [("a", .param optionalParam), ("b", .param strParam)]

/-- The non-option parameters of a signature, in order. -/
def paramsOf (sig : Sig) : List Param :=
  sig.filterMap (fun e => match e.2 with | .param p => some p | .opt _ => none)

/-- The first C6 overload `<bar:number>`. -/
def c6Sig1 : Sig := [("bar", .param numParam)]

/-- The second C6 overload `<baz:string>`. -/
def c6Sig2 : Sig := [("baz", .param strParam)]

/-- Registry with one prefixless command `cmd` with overloads
`<bar:number>` then `<baz:string>`. -/
def c6Manager : Manager :=
  addOrSame (mkManager none none) ["cmd"] [c6Sig1, c6Sig2] defaultAddConfig

/-- The definition registered by `c6Manager`. -/
def c6Def : CommandDef :=
  { id := 1, pre := none, triggers := ["cmd"], signatures := [c6Sig1, c6Sig2],
    preFilters := [], postFilters := [] }

/-- A non-switch string option with shortcut `o`. -/
def c7Opt : Opt :=
  { type := convString, shortcut := some "o", isSwitch := false, defVal := .null }

/-- Registry configured with option prefixes `-` and `----`, holding one
command `foo` that declares the option `option1`. -/
def c7Manager : Manager :=
  addOrSame (mkManager (some "!") (some ["-", "----"])) ["foo"]
    [[("option1", .opt c7Opt)]] defaultAddConfig

/-- The definition registered by `c7Manager`. -/
def c7Def : CommandDef :=
  { id := 1, pre := some "!", triggers := ["foo"], signatures := [[("option1", .opt c7Opt)]],
    preFilters := [], postFilters := [] }

/-- A non-switch option with the identity converter and declared default `d`. -/
def c10Opt (d : JsVal) : Opt :=
  { type := idConv, shortcut := none, isSwitch := false, defVal := d }

/-- A signature declaring only the option `o` with default `d`. -/
def c10OptSig (d : JsVal) : Sig := [("o", .opt (c10Opt d))]

/-- An optional parameter with the identity converter and declared default `d`. -/
def c10Param (d : JsVal) : Param :=
  { type := idConv, required := false, defVal := d, rest := false, catchAll := false }

/-- A signature declaring only the optional parameter `p` with default `d`. -/
def c10ParamSig (d : JsVal) : Sig := [("p", .param (c10Param d))]

/-- A manager with the default option prefixes, used to invoke the binder
directly. -/
def plainManager : Manager := mkManager none none

/-- The token-count measure of a scan state: emitted tokens plus the pending
accumulator. -/
def tokMeasure (σ : ParseState) : Nat :=
  σ.args.length + (if σ.current = "" then 0 else 1)


/-- The tokens a single scan step appends to the output array. -/
def stepNewToks (σ : ParseState) (i : Nat) (c : Char) : List Tok :=
  (parseStep σ i c).args.drop σ.args.length


theorem flushCurrent_inQuote (σ : ParseState) (n : Nat) (q : Bool) :
    (flushCurrent σ n q).inQuote = σ.inQuote := by
  unfold flushCurrent
  dsimp only
  split <;> rfl

theorem flushCurrent_startedWithQuote (σ : ParseState) (n : Nat) (q : Bool) :
    (flushCurrent σ n q).startedWithQuote = σ.startedWithQuote := by
  unfold flushCurrent
  dsimp only
  split <;> rfl

theorem flushCurrent_escape (σ : ParseState) (n : Nat) (q : Bool) :
    (flushCurrent σ n q).escape = σ.escape := by
  unfold flushCurrent
  dsimp only
  split <;> rfl

theorem push_ne_empty (s : String) (c : Char) : ¬(s.push c = "") := by
  intro h
  have h2 := congrArg String.data h
  simp at h2

theorem tokMeasure_flushCurrent (σ : ParseState) (n : Nat) (q : Bool) :
    tokMeasure (flushCurrent σ n q) = tokMeasure σ := by
  unfold tokMeasure flushCurrent
  dsimp only
  split
  next h => simp [h]
  next h => simp [h]

theorem tokMeasure_parseStep (σ : ParseState) (i : Nat) (c : Char) :
    tokMeasure (parseStep σ i c) ≤ tokMeasure σ + 1 := by
  unfold parseStep
  split
  next =>
    unfold tokMeasure
    dsimp only
    rw [if_neg (push_ne_empty _ _)]
    split <;> omega
  next =>
    split
    next =>
      have := tokMeasure_flushCurrent σ (i + 1) false
      omega
    next =>
      split
      next =>
        split
        next =>
          unfold tokMeasure
          dsimp only
          omega
        next =>
          split
          next =>
            have h1 := tokMeasure_flushCurrent σ (i + 1) σ.startedWithQuote
            unfold tokMeasure at h1 ⊢
            dsimp only
            omega
          next =>
            unfold tokMeasure
            dsimp only
            rw [if_neg (push_ne_empty _ _)]
            split <;> omega
      next =>
        split
        next =>
          unfold tokMeasure
          dsimp only
          omega
        next =>
          unfold tokMeasure
          dsimp only
          rw [if_neg (push_ne_empty _ _)]
          split <;> omega

theorem tokMeasure_foldl (ps : List (Nat × Char)) (σ0 : ParseState) :
    tokMeasure (ps.foldl (fun σ p => parseStep σ p.1 p.2) σ0) ≤ tokMeasure σ0 + ps.length := by
  induction ps generalizing σ0 with
  | nil => simp
  | cons p ps ih =>
    simp only [List.foldl_cons, List.length_cons]
    have h1 := ih (parseStep σ0 p.1 p.2)
    have h2 := tokMeasure_parseStep σ0 p.1 p.2
    omega

theorem parseArguments_length (s : String) :
    (parseArguments s).length = tokMeasure (runParseLoop s.data) := by
  unfold parseArguments tokMeasure flushCurrent
  dsimp only
  split
  next h =>
    simp [h]
  next h =>
    simp only [ne_eq, not_not] at h
    simp [h]

/-- C8: `tokenize` is total: every string, including ones with unbalanced
quotes, a trailing backslash, or non-ASCII code points, yields a finite
(possibly empty) token list — witnessed by the bound that a scan over `n`
code points emits at most `n` tokens, plus evaluations at each edge input. -/
theorem c8_tokenize_total :
    (∀ s : String, (parseArguments s).length ≤ s.data.length) ∧
    parseArguments "'x y" = [⟨0, "x y", false⟩] ∧
    parseArguments "foo\\" = [⟨0, "foo", false⟩] ∧
    parseArguments "héllo wörld✓" = [⟨0, "héllo", false⟩, ⟨6, "wörld✓", false⟩] ∧
    parseArguments "" = [] := by
  refine ⟨?_, rfl, rfl, rfl, rfl⟩
  intro s
  have h1 := parseArguments_length s
  have h2 := tokMeasure_foldl s.data.enum initParseState
  have h3 : tokMeasure initParseState = 0 := rfl
  have h4 : s.data.enum.length = s.data.length := List.enum_length
  unfold runParseLoop at h1
  omega

/-- C9: when the input ends inside an open quoted region the pending
accumulator is flushed by the trailing `flushCurrent(0)`, whose `quoted`
argument defaults to `false`; the opening quote itself was never appended.
Shown in general, and at `"a b` — where the token did begin with the opening
quote (`startedWithQuote` is still set) yet is emitted unquoted. -/
theorem c9_unterminated_quote_flush :
    (∀ s : String, (runParseLoop s.data).current ≠ "" →
      parseArguments s =
        (runParseLoop s.data).args ++
          [⟨(runParseLoop s.data).index, (runParseLoop s.data).current, false⟩]) ∧
    parseArguments "\"a b" = [⟨0, "a b", false⟩] ∧
    (runParseLoop "\"a b".data).startedWithQuote = true := by
  refine ⟨?_, rfl, rfl⟩
  intro s h
  unfold parseArguments flushCurrent
  simp [h]

theorem c9_unterminated_quote_flush_witness :
    parseArguments "\"a b" =
      (runParseLoop "\"a b".data).args ++
        [⟨(runParseLoop "\"a b".data).index, (runParseLoop "\"a b".data).current, false⟩] :=
  c9_unterminated_quote_flush.1 "\"a b" (by decide)

theorem parseStep_inv (σ : ParseState) (i : Nat) (c : Char)
    (h : σ.inQuote = none → σ.startedWithQuote = false) :
    (parseStep σ i c).inQuote = none → (parseStep σ i c).startedWithQuote = false := by
  unfold parseStep
  split
  next =>
    dsimp only
    exact h
  next =>
    split
    next =>
      intro hq
      rw [flushCurrent_inQuote] at hq
      rw [flushCurrent_startedWithQuote]
      exact h hq
    next =>
      split
      next =>
        split
        next =>
          dsimp only
          simp
        next =>
          split
          next =>
            dsimp only
            simp
          next =>
            dsimp only
            exact h
      next =>
        split
        next =>
          dsimp only
          exact h
        next =>
          dsimp only
          exact h

theorem runParseLoop_inv (ps : List (Nat × Char)) (σ0 : ParseState)
    (h : σ0.inQuote = none → σ0.startedWithQuote = false) :
    (ps.foldl (fun σ p => parseStep σ p.1 p.2) σ0).inQuote = none →
      (ps.foldl (fun σ p => parseStep σ p.1 p.2) σ0).startedWithQuote = false := by
  induction ps generalizing σ0 with
  | nil => exact h
  | cons p ps ih => exact ih _ (parseStep_inv _ _ _ h)

theorem stepNewToks_quoted (σ : ParseState) (i : Nat) (c : Char) (t : Tok)
    (ht : t ∈ stepNewToks σ i c) (hq : t.quoted = true) :
    isQuoteChar c = true ∧ σ.inQuote = some c ∧ σ.startedWithQuote = true := by
  unfold stepNewToks parseStep at ht
  split at ht
  next =>
    dsimp only at ht
    simp [List.drop_length] at ht
  next =>
    split at ht
    next =>
      unfold flushCurrent at ht
      dsimp only at ht
      split at ht
      next =>
        dsimp only at ht
        simp [List.drop_length] at ht
      next =>
        dsimp only at ht
        rw [List.drop_left] at ht
        simp at ht
        subst ht
        simp at hq
    next =>
      split at ht
      next hquote =>
        split at ht
        next =>
          dsimp only at ht
          simp [List.drop_length] at ht
        next q hsome =>
          split at ht
          next heq =>
            unfold flushCurrent at ht
            dsimp only at ht
            split at ht
            next =>
              dsimp only at ht
              simp [List.drop_length] at ht
            next =>
              dsimp only at ht
              rw [List.drop_left] at ht
              simp at ht
              subst ht
              simp at hq
              subst heq
              exact ⟨hquote, hsome, hq⟩
          next =>
            dsimp only at ht
            simp [List.drop_length] at ht
      next =>
        split at ht
        next =>
          dsimp only at ht
          simp [List.drop_length] at ht
        next =>
          dsimp only at ht
          simp [List.drop_length] at ht

theorem parseStep_openQuote (σ : ParseState) (i : Nat) (c : Char)
    (he : σ.escape = false) (hn : σ.inQuote = none) (hc : isQuoteChar c = true) :
    ((parseStep σ i c).startedWithQuote = true ↔
      (σ.current = "" ∨ σ.startedWithQuote = true)) := by
  have hcs : c = '\'' ∨ c = '"' := by
    simpa [isQuoteChar] using hc
  have hw : isJsWhitespace c = false := by
    rcases hcs with rfl | rfl <;> rfl
  unfold parseStep
  rw [if_neg (by simp [he]), if_neg (by simp [hw]), if_pos hc]
  simp only [hn]
  split <;> simp_all

/-- C3: a token is emitted with `wasQuoted = true` only by a close-quote step
taken while `startedWithQuote` holds (conjunct 3), `startedWithQuote` is set
at an opening quote exactly when the accumulator is empty or it was already
set (conjunct 4), and outside any quoted region it is never set (conjunct 5);
`"a b"` tokenizes to one quoted token `a b` while a quote opened mid-token
(`foo"bar baz"`) yields an unquoted token. -/
theorem c3_wasQuoted_iff :
    parseArguments "\"a b\"" = [⟨0, "a b", true⟩] ∧
    parseArguments "foo\"bar baz\"" = [⟨0, "foobar baz", false⟩] ∧
    (∀ (σ : ParseState) (i : Nat) (c : Char) (t : Tok),
      t ∈ stepNewToks σ i c → t.quoted = true →
        isQuoteChar c = true ∧ σ.inQuote = some c ∧ σ.startedWithQuote = true) ∧
    (∀ (σ : ParseState) (i : Nat) (c : Char),
      σ.escape = false → σ.inQuote = none → isQuoteChar c = true →
        ((parseStep σ i c).startedWithQuote = true ↔
          (σ.current = "" ∨ σ.startedWithQuote = true))) ∧
    (∀ s : String, (runParseLoop s.data).inQuote = none →
      (runParseLoop s.data).startedWithQuote = false) :=
  ⟨rfl, rfl, stepNewToks_quoted, parseStep_openQuote,
    fun s => runParseLoop_inv s.data.enum initParseState (fun _ => rfl)⟩

theorem c3_wasQuoted_iff_witness :
    isQuoteChar '"' = true ∧
      (ParseState.mk 0 "a b" false (some '"') true []).inQuote = some '"' ∧
      (ParseState.mk 0 "a b" false (some '"') true []).startedWithQuote = true :=
  c3_wasQuoted_iff.2.2.1 (ParseState.mk 0 "a b" false (some '"') true []) 4 '"'
    ⟨0, "a b", true⟩ (by decide) rfl

/-- C4: literal triggers are compiled case-insensitively, anchored to the
start of the post-prefix string, and must be followed by whitespace or end of
string: with `s` registered before `suspend` under prefix `!`, `!suspend`
matches `suspend` (not `s`), `!s foo` matches `s`, `!suspendo` and `!foor`
match nothing, and a mixed-case `!SuSpEnD` still matches `suspend`. -/
theorem c4_trigger_matching :
    findMatchingCommand c4Manager "!suspend" = some (.success ⟨c4DefSuspend, []⟩) ∧
    findMatchingCommand c4Manager "!s foo" =
      some (.success ⟨c4DefS, [("arg", ⟨.param strParam, .str "foo", false⟩)]⟩) ∧
    findMatchingCommand c4Manager "!suspendo" = none ∧
    findMatchingCommand c4Manager "!foor" = none ∧
    findMatchingCommand c4Manager "!SuSpEnD" = some (.success ⟨c4DefSuspend, []⟩) :=
  ⟨rfl, rfl, rfl, rfl, rfl⟩

theorem validateLoop_cons_param (n : String) (p0 : Param) (rest : Sig) (ho hr hc : Bool) :
    isErr (validateLoop ((n, .param p0) :: rest) ho hr hc) = true ∨
      (ho = false ∧ hr = false ∧ hc = false ∧
        validateLoop ((n, .param p0) :: rest) ho hr hc =
          validateLoop rest (!p0.required) p0.rest p0.catchAll) := by
  cases hho : ho
  · cases hhr : hr
    · cases hhc : hc
      · right
        refine ⟨rfl, rfl, rfl, ?_⟩
        conv_lhs => unfold validateLoop
        simp
      · left
        unfold validateLoop
        simp [isErr]
    · left
      unfold validateLoop
      simp [isErr]
  · left
    unfold validateLoop
    cases hpr : p0.required <;> simp [isErr, hpr]

theorem validateLoop_err_flags (l : Sig) (ho hr hc : Bool)
    (hf : (ho || hr || hc) = true) (hne : paramsOf l ≠ []) :
    isErr (validateLoop l ho hr hc) = true := by
  induction l generalizing ho hr hc with
  | nil => simp [paramsOf] at hne
  | cons e rest ih =>
    obtain ⟨n, entry⟩ := e
    cases entry with
    | opt o =>
      have h1 : validateLoop ((n, .opt o) :: rest) ho hr hc = validateLoop rest ho hr hc := rfl
      have h2 : paramsOf ((n, .opt o) :: rest) = paramsOf rest := rfl
      rw [h1]
      rw [h2] at hne
      exact ih ho hr hc hf hne
    | param p0 =>
      rcases validateLoop_cons_param n p0 rest ho hr hc with herr | ⟨h1, h2, h3, _⟩
      · exact herr
      · subst h1 h2 h3
        simp at hf

theorem validateLoop_err_pair (l : Sig) (ho hr hc : Bool) (i j : Nat) (p q : Param)
    (hij : i < j) (hi : (paramsOf l).get? i = some p)
    (hj : (paramsOf l).get? j = some q)
    (hviol : p.required = false ∨ p.rest = true ∨ p.catchAll = true) :
    isErr (validateLoop l ho hr hc) = true := by
  induction l generalizing ho hr hc i j with
  | nil => simp [paramsOf] at hi
  | cons e rest ih =>
    obtain ⟨n, entry⟩ := e
    cases entry with
    | opt o =>
      have h1 : validateLoop ((n, .opt o) :: rest) ho hr hc = validateLoop rest ho hr hc := rfl
      have h2 : paramsOf ((n, .opt o) :: rest) = paramsOf rest := rfl
      rw [h1]
      rw [h2] at hi hj
      exact ih ho hr hc i j hij hi hj
    | param p0 =>
      have h2 : paramsOf ((n, .param p0) :: rest) = p0 :: paramsOf rest := rfl
      rw [h2] at hi hj
      rcases validateLoop_cons_param n p0 rest ho hr hc with herr | ⟨_, _, _, heq⟩
      · exact herr
      · rw [heq]
        cases i with
        | zero =>
          simp at hi
          obtain ⟨j2, rfl⟩ : ∃ j2, j = j2 + 1 := ⟨j - 1, by omega⟩
          have hj2 : (paramsOf rest).get? j2 = some q := by simpa using hj
          have hne : paramsOf rest ≠ [] := by
            intro hcon
            rw [hcon] at hj2
            simp at hj2
          apply validateLoop_err_flags _ _ _ _ _ hne
          subst hi
          rcases hviol with hv | hv | hv <;> simp [hv]
        | succ i2 =>
          obtain ⟨j2, rfl⟩ : ∃ j2, j = j2 + 1 := ⟨j - 1, by omega⟩
          have hi2 : (paramsOf rest).get? i2 = some p := by simpa using hi
          have hj2 : (paramsOf rest).get? j2 = some q := by simpa using hj
          exact ih _ _ _ i2 j2 (by omega) hi2 hj2

/-- C5: `add()` rejects (synchronously, leaving the registry unchanged — the
error is produced before the definition is appended) every signature in which
an optional, rest, or catch-all positional parameter is followed by a further
positional parameter — which covers two optionals, a required parameter after
an optional one, and anything after a rest or catch-all parameter; in
particular `<a...> <b...>`, `<a$> <b$>` and `[a] <b>` each raise the matching
configuration error. -/
theorem c5_add_rejects_invalid_signatures :
    (∀ (sig : Sig) (i j : Nat) (p q : Param),
      i < j → (paramsOf sig).get? i = some p → (paramsOf sig).get? j = some q →
      (p.required = false ∨ p.rest = true ∨ p.catchAll = true) →
      isErr (validateSignature sig) = true) ∧
    add (mkManager (some "!") none) ["foo"] [twoRestSig] defaultAddConfig =
      .error "Rest parameter must come last" ∧
    add (mkManager (some "!") none) ["foo"] [twoCatchAllSig] defaultAddConfig =
      .error "Catch-all parameter must come last" ∧
    add (mkManager (some "!") none) ["foo"] [optThenReqSig] defaultAddConfig =
      .error "Optional parameter must come last" := by
  refine ⟨?_, rfl, rfl, rfl⟩
  intro sig i j p q hij hi hj hviol
  exact validateLoop_err_pair sig false false false i j p q hij hi hj hviol

theorem c5_add_rejects_invalid_signatures_witness :
    isErr (validateSignature optThenReqSig) = true :=
  c5_add_rejects_invalid_signatures.1 optThenReqSig 0 1 optionalParam strParam
    (by omega) rfl rfl (Or.inl rfl)

theorem sigLoop_first_success (m : Manager) (args : List Tok) (str : String)
    (sigs : List Sig) (k : Nat) (sig : Sig) (hk : sigs.get? k = some sig)
    (hprev : ∀ (l : Nat) (sl : Sig), l < k → sigs.get? l = some sl →
      isErr (tryMatchingArgumentsToSignature m args sl str) = true)
    (hok : isErr (tryMatchingArgumentsToSignature m args sig str) = false) :
    sigLoop m args str sigs = tryMatchingArgumentsToSignature m args sig str := by
  induction sigs generalizing k with
  | nil => simp at hk
  | cons s rest ih =>
    cases k with
    | zero =>
      simp at hk
      subst hk
      cases htry : tryMatchingArgumentsToSignature m args s str with
      | ok r => simp [sigLoop, htry]
      | error e =>
        rw [htry] at hok
        simp [isErr] at hok
    | succ k2 =>
      have h0 := hprev 0 s (by omega) rfl
      cases htry : tryMatchingArgumentsToSignature m args s str with
      | ok r =>
        rw [htry] at h0
        simp [isErr] at h0
      | error e =>
        have hk2 : rest.get? k2 = some sig := by simpa using hk
        cases rest with
        | nil => simp at hk2
        | cons s2 rest2 =>
          have heq : sigLoop m args str (s :: s2 :: rest2) = sigLoop m args str (s2 :: rest2) := by
            conv_lhs => unfold sigLoop
            simp only [htry]
          rw [heq]
          exact ih k2 hk2
            (fun l sl hl hsl => hprev (l + 1) sl (by omega) (by simpa using hsl))

/-- C6: signature overloads are tried strictly in declaration order and the
first overload that binds wins (conjunct 1: whenever every earlier overload
errors and overload `k` binds, the loop returns overload `k`'s binding); with
overloads `<bar:number>` then `<baz:string>`, `cmd 10` selects the first with
`bar = 10` and `cmd test` fails the first on type conversion and selects the
second with `baz = "test"`. -/
theorem c6_overload_order :
    (∀ (m : Manager) (args : List Tok) (str : String) (sigs : List Sig)
        (k : Nat) (sig : Sig),
      sigs.get? k = some sig →
      (∀ (l : Nat) (sl : Sig), l < k → sigs.get? l = some sl →
        isErr (tryMatchingArgumentsToSignature m args sl str) = true) →
      isErr (tryMatchingArgumentsToSignature m args sig str) = false →
      sigLoop m args str sigs = tryMatchingArgumentsToSignature m args sig str) ∧
    findMatchingCommand c6Manager "cmd 10" =
      some (.success ⟨c6Def, [("bar", ⟨.param numParam, .num 10, false⟩)]⟩) ∧
    findMatchingCommand c6Manager "cmd test" =
      some (.success ⟨c6Def, [("baz", ⟨.param strParam, .str "test", false⟩)]⟩) :=
  ⟨fun m args str sigs k sig hk hprev hok =>
      sigLoop_first_success m args str sigs k sig hk hprev hok, rfl, rfl⟩

theorem c6_overload_order_witness :
    sigLoop c6Manager (parseArguments " test") " test" [c6Sig1, c6Sig2] =
      tryMatchingArgumentsToSignature c6Manager (parseArguments " test") c6Sig2 " test" :=
  c6_overload_order.1 c6Manager (parseArguments " test") " test" [c6Sig1, c6Sig2] 1 c6Sig2
    rfl
    (fun l sl hl hsl => by
      have hl0 : l = 0 := by omega
      subst hl0
      simp at hsl
      subst hsl
      rfl)
    rfl

theorem mem_insertByLen (x a : String) (l : List String) :
    a ∈ insertByLen x l ↔ a = x ∨ a ∈ l := by
  induction l with
  | nil => simp [insertByLen]
  | cons y ys ih =>
    unfold insertByLen
    split
    · simp [List.mem_cons]
      try tauto
    · simp only [List.mem_cons, ih]
      try tauto

theorem pairwise_insertByLen (x : String) (l : List String)
    (h : l.Pairwise (fun a b => b.length ≤ a.length)) :
    (insertByLen x l).Pairwise (fun a b => b.length ≤ a.length) := by
  induction l with
  | nil => simp [insertByLen]
  | cons y ys ih =>
    unfold insertByLen
    rcases List.pairwise_cons.mp h with ⟨hy, hys⟩
    split
    next hlt =>
      refine List.pairwise_cons.mpr ⟨?_, h⟩
      intro z hz
      rcases List.mem_cons.mp hz with rfl | hz2
      · omega
      · have := hy z hz2
        omega
    next hge =>
      refine List.pairwise_cons.mpr ⟨?_, ih hys⟩
      intro z hz
      rcases (mem_insertByLen x z ys).mp hz with rfl | hz2
      · omega
      · exact hy z hz2

theorem mem_sortPrefixes (a : String) (l : List String) :
    a ∈ sortPrefixes l ↔ a ∈ l := by
  induction l with
  | nil => simp [sortPrefixes]
  | cons x xs ih =>
    simp only [sortPrefixes, mem_insertByLen, List.mem_cons, ih]

theorem pairwise_sortPrefixes (l : List String) :
    (sortPrefixes l).Pairwise (fun a b => b.length ≤ a.length) := by
  induction l with
  | nil => simp [sortPrefixes]
  | cons x xs ih => exact pairwise_insertByLen x _ ih

theorem find?_longest (p : String → Bool) (l : List String)
    (hsorted : l.Pairwise (fun a b => b.length ≤ a.length))
    (res : String) (hres : l.find? p = some res) :
    ∀ q ∈ l, p q = true → q.length ≤ res.length := by
  induction l with
  | nil => simp at hres
  | cons y ys ih =>
    rcases List.pairwise_cons.mp hsorted with ⟨hy, hys⟩
    intro q hq hpq
    by_cases hpy : p y = true
    · rw [List.find?_cons_of_pos _ hpy] at hres
      have hyres : y = res := by
        injection hres
      subst hyres
      rcases List.mem_cons.mp hq with rfl | hq2
      · exact le_refl _
      · exact hy q hq2
    · rw [List.find?_cons_of_neg _ (by simpa using hpy)] at hres
      rcases List.mem_cons.mp hq with rfl | hq2
      · exact absurd hpq hpy
      · exact ih hys hres q hq2 hpq

/-- C7: option prefixes are tested longest-first: whatever list of prefixes
the manager is constructed with, the prefix the binder finds for a token is at
least as long as every configured prefix the token starts with (conjuncts 1–2:
the sorted search finds a maximal-length match whenever any prefix matches);
with prefixes `-` and `----` the manager stores `["----", "-"]` and
`----option1=optvalue1` resolves `option1` via the 4-character prefix with
value `optvalue1`. -/
theorem c7_longest_option_prefix :
    (∀ (l : List String) (tok : String) (p : String),
      (sortPrefixes l).find? (fun pr => jsStartsWith tok pr) = some p →
      ∀ q ∈ l, jsStartsWith tok q = true → q.length ≤ p.length) ∧
    (∀ (l : List String) (tok q : String), q ∈ l → jsStartsWith tok q = true →
      ∃ p, (sortPrefixes l).find? (fun pr => jsStartsWith tok pr) = some p) ∧
    c7Manager.optionPrefixes = ["----", "-"] ∧
    findMatchingCommand c7Manager "!foo ----option1=optvalue1" =
      some (.success ⟨c7Def, [("option1", ⟨.opt c7Opt, .str "optvalue1", false⟩)]⟩) := by
  refine ⟨?_, ?_, rfl, rfl⟩
  · intro l tok p hfind q hq hpq
    exact find?_longest _ (sortPrefixes l) (pairwise_sortPrefixes l) p hfind q
      ((mem_sortPrefixes q l).mpr hq) hpq
  · intro l tok q hq hpq
    have hex : ∃ x ∈ sortPrefixes l, jsStartsWith tok x = true :=
      ⟨q, (mem_sortPrefixes q l).mpr hq, hpq⟩
    have h2 := List.find?_isSome.mpr hex
    rcases Option.isSome_iff_exists.mp h2 with ⟨p, hp⟩
    exact ⟨p, hp⟩

theorem c7_longest_option_prefix_witness :
    ("----" : String).length ≤ ("----" : String).length :=
  c7_longest_option_prefix.1 ["-", "----"] "----option1=optvalue1" "----" rfl "----"
    (by simp) rfl

/-- C10: after binding, an unbound non-switch option or unbound optional
parameter receives its declared default (flagged as a default) exactly when
that default is truthy; a falsy default (`""`, `0`, `false`) leaves the name
absent from the result values, and that absence is not an error. -/
theorem c10_falsy_default_skipped :
    (∀ d : JsVal, jsTruthy d = true →
      tryMatchingArgumentsToSignature plainManager [] (c10OptSig d) "" =
        .ok [("o", ⟨.opt (c10Opt d), d, true⟩)]) ∧
    (∀ d : JsVal, jsTruthy d = false →
      tryMatchingArgumentsToSignature plainManager [] (c10OptSig d) "" = .ok []) ∧
    (∀ d : JsVal, jsTruthy d = true →
      tryMatchingArgumentsToSignature plainManager [] (c10ParamSig d) "" =
        .ok [("p", ⟨.param (c10Param d), d, true⟩)]) ∧
    (∀ d : JsVal, jsTruthy d = false →
      tryMatchingArgumentsToSignature plainManager [] (c10ParamSig d) "" = .ok []) := by
  refine ⟨?_, ?_, ?_, ?_⟩ <;> intro d hd <;>
    simp [tryMatchingArgumentsToSignature, c10OptSig, c10ParamSig, c10Opt, c10Param,
      bindLoop, fillOptionDefaults, fillParamDefaults, convertValues, convertOne,
      sigLookup, getEntry, setEntry, idConv, hd]

theorem c10_falsy_default_skipped_witness :
    (jsTruthy (.str "x") = true ∧
      tryMatchingArgumentsToSignature plainManager [] (c10OptSig (.str "x")) "" =
        .ok [("o", ⟨.opt (c10Opt (.str "x")), .str "x", true⟩)]) ∧
    (jsTruthy (.str "") = false ∧
      tryMatchingArgumentsToSignature plainManager [] (c10ParamSig (.str "")) "" = .ok []) :=
  ⟨⟨rfl, c10_falsy_default_skipped.1 (.str "x") rfl⟩,
    ⟨rfl, c10_falsy_default_skipped.2.2.2 (.str "") rfl⟩⟩

/-- C1 counterexample: with the catch-all signature `<arg$>` and no declared
options, `!cmd --unknown=val stuff` does not bind the catch-all — the binder
resolves the first token as an option reference first and reports an
unknown-option match error. -/
theorem c1_counterexample :
    findMatchingCommand c1Manager "!cmd --unknown=val stuff" =
      some (.failure "Unknown option: --unknown" c1Def) := rfl

/-- C1 (amended): options are never parsed out of the region a catch-all
absorbs — with `<arg$>` first, any token stream whose first token is quoted or
does not start with a configured option prefix binds `arg` to the raw tail of
the input from that token's offset (later option-like tokens included) with no
error; concretely `!cmd blah --unknown=val stuff` binds `arg` to the literal
`blah --unknown=val stuff`. An unquoted first token that starts with an option
prefix is still resolved as an option (and an unknown name there is a match
error, per the counterexample). -/
theorem c1_catchAll_amended :
    (∀ (m : Manager) (t : Tok) (restToks : List Tok) (str : String),
      (t.quoted = true ∨
        m.optionPrefixes.find? (fun pr => jsStartsWith t.value pr) = none) →
      tryMatchingArgumentsToSignature m (t :: restToks) c1Sig str =
        .ok [("arg", ⟨.param catchAllParam, .str (jsSlice str t.index), false⟩)]) ∧
    findMatchingCommand c1Manager "!cmd blah --unknown=val stuff" =
      some (.success ⟨c1Def,
        [("arg", ⟨.param catchAllParam, .str "blah --unknown=val stuff", false⟩)]⟩) := by
  refine ⟨?_, rfl⟩
  intro m t restToks str h
  rcases h with hq | hf
  · simp [tryMatchingArgumentsToSignature, c1Sig, bindLoop, bindStep, catchAllParam,
      setEntry, fillOptionDefaults, fillParamDefaults, getEntry, convertValues,
      convertOne, sigLookup, convString, jsToString, jsToStringAtom, hq]
  · simp [tryMatchingArgumentsToSignature, c1Sig, bindLoop, bindStep, catchAllParam,
      setEntry, fillOptionDefaults, fillParamDefaults, getEntry, convertValues,
      convertOne, sigLookup, convString, jsToString, jsToStringAtom, hf]

theorem c1_catchAll_amended_witness :
    tryMatchingArgumentsToSignature c1Manager
        [⟨1, "blah", false⟩, ⟨6, "--unknown=val", false⟩, ⟨20, "stuff", false⟩]
        c1Sig " blah --unknown=val stuff" =
      .ok [("arg", ⟨.param catchAllParam, .str "blah --unknown=val stuff", false⟩)] := by
  have h := c1_catchAll_amended.1 c1Manager ⟨1, "blah", false⟩
    [⟨6, "--unknown=val", false⟩, ⟨20, "stuff", false⟩]
    " blah --unknown=val stuff" (Or.inr rfl)
  exact h

theorem findLoop_failure_iff (m : Manager) (s : String) (cmds : List CommandDef)
    (oE : Bool) (lE : Option (String × CommandDef)) (e : String) (c : CommandDef) :
    findLoop m s cmds oE lE = some (.failure e c) ↔
      (oE = true ∧ (∀ c2 ∈ cmds, ∀ mc, cmdOutcome m s c2 ≠ some (.ok mc)) ∧
        lastErrOf m s cmds lE = some (e, c)) := by
  induction cmds generalizing oE lE with
  | nil =>
    cases lE with
    | none => simp [findLoop, lastErrOf]
    | some p =>
      obtain ⟨e2, c2⟩ := p
      cases oE <;> simp [findLoop, lastErrOf]
  | cons c2 rest ih =>
    by_cases hpre : c2.preFilters.all id = true
    · cases htry : tryMatchingCommand m c2 s with
      | none =>
        have ho : cmdOutcome m s c2 = none := by simp [cmdOutcome, hpre, htry]
        have hstep : findLoop m s (c2 :: rest) oE lE = findLoop m s rest oE lE := by
          conv_lhs => unfold findLoop
          rw [if_neg (by simp [hpre])]
          simp only [htry]
        have hlast : lastErrOf m s (c2 :: rest) lE = lastErrOf m s rest lE := by
          conv_lhs => unfold lastErrOf
          simp only [ho]
        rw [hstep, hlast, ih oE lE]
        simp [List.forall_mem_cons, ho]
      | some r =>
        cases r with
        | error e2 =>
          have ho : cmdOutcome m s c2 = some (.error e2) := by
            simp [cmdOutcome, hpre, htry]
          have hstep : findLoop m s (c2 :: rest) oE lE =
              findLoop m s rest oE (some (e2, c2)) := by
            conv_lhs => unfold findLoop
            rw [if_neg (by simp [hpre])]
            simp only [htry]
          have hlast : lastErrOf m s (c2 :: rest) lE =
              lastErrOf m s rest (some (e2, c2)) := by
            conv_lhs => unfold lastErrOf
            simp only [ho]
          rw [hstep, hlast, ih oE (some (e2, c2))]
          simp [List.forall_mem_cons, ho]
        | ok mc =>
          have ho : cmdOutcome m s c2 = some (.ok mc) := by simp [cmdOutcome, hpre, htry]
          by_cases hpost : c2.postFilters.all id = true
          · have hstep : findLoop m s (c2 :: rest) oE lE = some (.success mc) := by
              conv_lhs => unfold findLoop
              rw [if_neg (by simp [hpre])]
              simp only [htry]
              rw [if_neg (by simp [hpost])]
            rw [hstep]
            constructor
            · intro h
              simp at h
            · rintro ⟨_, h2, _⟩
              exact absurd ho (h2 c2 (by simp) mc)
          · have hstep : findLoop m s (c2 :: rest) oE lE = findLoop m s rest false lE := by
              conv_lhs => unfold findLoop
              rw [if_neg (by simp [hpre])]
              simp only [htry]
              rw [if_pos (by simp [hpost])]
            rw [hstep, ih false lE]
            constructor
            · rintro ⟨h1, _, _⟩
              exact absurd h1 (by simp)
            · rintro ⟨_, h2, _⟩
              exact absurd ho (h2 c2 (by simp) mc)
    · have ho : cmdOutcome m s c2 = none := by simp [cmdOutcome, hpre]
      have hstep : findLoop m s (c2 :: rest) oE lE = findLoop m s rest oE lE := by
        conv_lhs => unfold findLoop
        rw [if_pos (by simp [hpre])]
      have hlast : lastErrOf m s (c2 :: rest) lE = lastErrOf m s rest lE := by
        conv_lhs => unfold lastErrOf
        simp only [ho]
      rw [hstep, hlast, ih oE lE]
      simp [List.forall_mem_cons, ho]

theorem findLoop_none_of_all_none (m : Manager) (s : String) (cmds : List CommandDef)
    (oE : Bool) (h : ∀ c2 ∈ cmds, cmdOutcome m s c2 = none) :
    findLoop m s cmds oE none = none := by
  induction cmds generalizing oE with
  | nil => rfl
  | cons c2 rest ih =>
    have ho := h c2 (by simp)
    by_cases hpre : c2.preFilters.all id = true
    · have htry : tryMatchingCommand m c2 s = none := by
        rw [cmdOutcome, if_pos hpre] at ho
        exact ho
      have hstep : findLoop m s (c2 :: rest) oE none = findLoop m s rest oE none := by
        conv_lhs => unfold findLoop
        rw [if_neg (by simp [hpre])]
        simp only [htry]
      rw [hstep]
      exact ih oE (fun c3 hc3 => h c3 (by simp [hc3]))
    · have hstep : findLoop m s (c2 :: rest) oE none = findLoop m s rest oE none := by
        conv_lhs => unfold findLoop
        rw [if_pos (by simp [hpre])]
      rw [hstep]
      exact ih oE (fun c3 hc3 => h c3 (by simp [hc3]))

/-- C2 counterexample: in `c2Manager` the first definition's binding attempt
errors on `!foo` and the second binds successfully but is rejected by its
post-filter; no definition produced a full success, yet `findMatchingCommand`
returns `null` rather than the retained error — the successful bind cleared
the `onlyErrors` flag even though its post-filter rejected it. -/
theorem c2_counterexample :
    findMatchingCommand c2Manager "!foo" = none ∧
    c2Manager.commands = [c2Def1, c2Def2] ∧
    cmdOutcome c2Manager "!foo" c2Def1 =
      some (.error "Missing required argument: arg") ∧
    cmdOutcome c2Manager "!foo" c2Def2 = some (.ok ⟨c2Def2, []⟩) ∧
    c2Def2.postFilters = [false] :=
  ⟨rfl, rfl, rfl, rfl, rfl⟩

/-- C2 (amended): definitions are tried in registration order and a match
error never aborts the search; the retained most-recent match error (with its
definition) is returned exactly when no prefilter-passing definition's binding
attempt succeeded at all and at least one produced an error — a successful
bind counts against error reporting even when a post-filter then rejects it
(in that case the search returns `null`, not the error); and `null` is
returned when no definition ever reached binding. -/
theorem c2_error_retention_amended :
    (∀ (m : Manager) (s : String) (e : String) (c : CommandDef),
      findMatchingCommand m s = some (.failure e c) ↔
        ((∀ c2 ∈ m.commands, ∀ mc, cmdOutcome m s c2 ≠ some (.ok mc)) ∧
          lastErrOf m s m.commands none = some (e, c))) ∧
    (∀ (m : Manager) (s : String),
      (∀ c2 ∈ m.commands, cmdOutcome m s c2 = none) →
      findMatchingCommand m s = none) := by
  constructor
  · intro m s e c
    have h := findLoop_failure_iff m s m.commands true none e c
    rw [findMatchingCommand]
    simpa using h
  · intro m s h
    rw [findMatchingCommand]
    exact findLoop_none_of_all_none m s m.commands true h

theorem c2_error_retention_amended_witness :
    findMatchingCommand c4Manager "!zzz" = none :=
  c2_error_retention_amended.2 c4Manager "!zzz" (by
    intro c2 hc2
    have hcmds : c4Manager.commands = [c4DefS, c4DefSuspend] := rfl
    rw [hcmds] at hc2
    rcases List.mem_cons.mp hc2 with rfl | hc2
    · rfl
    · rcases List.mem_cons.mp hc2 with rfl | hc2
      · rfl
      · simp at hc2)

end Knub
